import Mathlib

/-!
Shallow embedding of the Tracy ray tracer (the files under src/src/) over
exact real arithmetic: the Vec3 algebra and Ray of src/src/lib.rs and
src/src/ray.rs, the materials of src/src/material/, and, clearly marked in
their doc comments, the parts of the repository that the snapshot lacks,
modelled from the spec.
-/

noncomputable section

/-- Vec3 of src/src/lib.rs; the f64 components are embedded as real numbers. -/
@[ext]
structure Vec3 where
  x : ℝ
  y : ℝ
  z : ℝ

/-- Type alias Point3 of src/src/lib.rs. -/
abbrev Point3 := Vec3

/-- Type alias Color of src/src/lib.rs. -/
abbrev Color := Vec3

instance : Neg Vec3 :=
  ⟨fun v => ⟨-v.x, -v.y, -v.z⟩⟩

instance : Add Vec3 :=
  ⟨fun a b => ⟨a.x + b.x, a.y + b.y, a.z + b.z⟩⟩

instance : Sub Vec3 :=
  ⟨fun a b => ⟨a.x - b.x, a.y - b.y, a.z - b.z⟩⟩

instance : Mul Vec3 :=
  ⟨fun a b => ⟨a.x * b.x, a.y * b.y, a.z * b.z⟩⟩

instance : HMul Vec3 ℝ Vec3 :=
  ⟨fun v r => ⟨v.x * r, v.y * r, v.z * r⟩⟩

instance : HDiv Vec3 ℝ Vec3 :=
  ⟨fun v r => v * ((1 : ℝ) / r)⟩

namespace Vec3

/-- Vec3::dot of src/src/lib.rs. -/
def dot (a b : Vec3) : ℝ :=
  a.x * b.x + a.y * b.y + a.z * b.z

/-- Vec3::cross of src/src/lib.rs. -/
def cross (a b : Vec3) : Vec3 :=
  ⟨a.y * b.z - a.z * b.y, a.z * b.x - a.x * b.z, a.x * b.y - a.y * b.x⟩

/-- Vec3::length_squared of src/src/lib.rs. -/
def length_squared (v : Vec3) : ℝ :=
  v.x * v.x + v.y * v.y + v.z * v.z

/-- Vec3::length of src/src/lib.rs. -/
def length (v : Vec3) : ℝ :=
  Real.sqrt v.length_squared

/-- Vec3::near_zero of src/src/lib.rs (all components below 1e-8 in magnitude). -/
def near_zero (v : Vec3) : Prop :=
  |v.x| < 1e-8 ∧ |v.y| < 1e-8 ∧ |v.z| < 1e-8

instance (v : Vec3) : Decidable v.near_zero := by
  unfold near_zero; infer_instance

/-- Vec3::reflect of src/src/lib.rs: self - normal * self.dot(normal) * 2.0. -/
def reflect (v normal : Vec3) : Vec3 :=
  v - normal * v.dot normal * (2 : ℝ)

/-- Vec3::unit_vector of src/src/lib.rs: each component divided by the length. -/
def unit_vector (v : Vec3) : Vec3 :=
  ⟨v.x / v.length, v.y / v.length, v.z / v.length⟩

/-- Modelled from the spec: Dielectric::scatter in src/src/material/dielectric.rs
calls Vec3::refract, which the snapshot of src/src/lib.rs does not contain.
Following spec section 4.1, for a unit incident vector uv, a unit normal n and
the quotient of refractive indices, the Snell construction builds the
components perpendicular and parallel to the normal. -/
def refract (uv n : Vec3) (etai_over_etat : ℝ) : Vec3 :=
  let cos_theta := min ((-uv).dot n) 1
  let r_out_perp := (uv + n * cos_theta) * etai_over_etat
  let r_out_parallel := n * (-Real.sqrt |1 - r_out_perp.length_squared|)
  r_out_perp + r_out_parallel

end Vec3

/-- Ray of src/src/ray.rs: origin and direction (this version of the file has
no time field). -/
structure Ray where
  origin : Point3
  direction : Vec3

namespace Ray

/-- Ray::at of src/src/ray.rs (named at_t because at is a Lean keyword). -/
def at_t (r : Ray) (t : ℝ) : Point3 :=
  r.origin + r.direction * t

/-- Ray::hit_sphere of src/src/ray.rs. -/
def hit_sphere (r : Ray) (center : Point3) (radius : ℝ) : ℝ :=
  let oc := r.origin - center
  let a := r.direction.dot r.direction
  let b := oc.dot r.direction * 2
  let c := oc.dot oc - radius * radius
  let discriminant := b * b - 4 * a * c
  if discriminant < 0 then -1 else (-b - Real.sqrt discriminant) / (2 * a)

/-- Ray::color of src/src/ray.rs: shade the hard-coded sphere at (0,0,-1) of
radius 0.5 when the returned parameter is positive, else the background
gradient between white and blue. -/
def color (r : Ray) : Color :=
  let t := r.hit_sphere ⟨0, 0, -1⟩ 0.5
  if t > 0 then
    let n := (r.at_t t - (⟨0, 0, -1⟩ : Vec3)).unit_vector
    (⟨n.x + 1, n.y + 1, n.z + 1⟩ : Color) * (0.5 : ℝ)
  else
    let unit_direction := r.direction.unit_vector
    let t := 0.5 * (unit_direction.y + 1)
    let white : Color := ⟨1, 1, 1⟩
    let blue : Color := ⟨0.5, 0.7, 1⟩
    white * (1 - t) + blue * t

end Ray

/-- HitRecord of src/src/hittable/mod.rs (fields p, normal, t). The front_face
flag is read by Dielectric::scatter in src/src/material/dielectric.rs but is
missing from the snapshot of hittable/mod.rs; it is modelled from the spec
(section 3, HitRecord). -/
structure HitRecord where
  p : Point3
  normal : Vec3
  t : ℝ
  front_face : Bool

/-- Lambertian of src/src/material/lambertian.rs. -/
structure Lambertian where
  albedo : Color

/-- Lambertian::new of src/src/material/lambertian.rs. -/
def Lambertian.new (albedo : Color) : Lambertian :=
  ⟨albedo⟩

/-- Lambertian::scatter of src/src/material/lambertian.rs. The process-wide
random unit vector draw is passed explicitly as rand_unit; the Rust
out-parameters attenuation and scattered are returned together with the Bool
result. -/
def Lambertian.scatter (l : Lambertian) (_ray_in : Ray) (rec : HitRecord)
    (rand_unit : Vec3) : Color × Ray × Bool :=
  let scatter_direction := rec.normal + rand_unit
  let scatter_direction :=
    if scatter_direction.near_zero then rec.normal else scatter_direction
  (l.albedo, Ray.mk rec.p scatter_direction, true)

/-- Metal of src/src/material/metal.rs. -/
structure Metal where
  albedo : Color
  fuzz : ℝ

/-- Metal::new of src/src/material/metal.rs: the stored fuzz is
f64::min(fuzz, 1.0). -/
def Metal.new (albedo : Color) (fuzz : ℝ) : Metal :=
  ⟨albedo, min fuzz 1⟩

/-- Metal::scatter of src/src/material/metal.rs; the Vec3::random_in_unit_sphere
draw is passed explicitly as rand_sphere. -/
def Metal.scatter (m : Metal) (ray_in : Ray) (rec : HitRecord)
    (rand_sphere : Vec3) : Option (Ray × Color) :=
  let reflected := (ray_in.direction.unit_vector).reflect rec.normal
  let scattered := Ray.mk rec.p (reflected + rand_sphere * m.fuzz)
  if scattered.direction.dot rec.normal > 0 then some (scattered, m.albedo) else none

/-- Dielectric of src/src/material/dielectric.rs. -/
structure Dielectric where
  index_of_refraction : ℝ

/-- Dielectric::new of src/src/material/dielectric.rs. -/
def Dielectric.new (index_of_refraction : ℝ) : Dielectric :=
  ⟨index_of_refraction⟩

/-- Dielectric::reflectance of src/src/material/dielectric.rs (Schlick
approximation). -/
def Dielectric.reflectance (cosine ref_idx : ℝ) : ℝ :=
  let r0 := (1 - ref_idx) / (1 + ref_idx)
  let r0 := r0 * r0
  r0 + (1 - r0) * (1 - cosine) ^ (5 : ℕ)

/-- Dielectric::scatter of src/src/material/dielectric.rs; the process-wide
uniform draw in [0,1) compared against the Schlick reflectance is passed
explicitly as rand. The quotient of refractive indices (refraction_ratio in
the source) is named eta_frac here. -/
def Dielectric.scatter (d : Dielectric) (ray_in : Ray) (rec : HitRecord)
    (rand : ℝ) : Color × Ray × Bool :=
  let eta_frac := if rec.front_face then 1 / d.index_of_refraction else d.index_of_refraction
  let unit_direction := ray_in.direction.unit_vector
  let cos_theta := min ((-unit_direction).dot rec.normal) 1
  let sin_theta := Real.sqrt (1 - cos_theta * cos_theta)
  let direction :=
    if eta_frac * sin_theta > 1 ∨ Dielectric.reflectance cos_theta eta_frac > rand then
      unit_direction.reflect rec.normal
    else
      unit_direction.refract rec.normal eta_frac
  ((⟨1, 1, 1⟩ : Color), Ray.mk rec.p direction, true)

/-- Modelled from the spec: the Ray of the full repository carries a time
field (spec section 3); the ray.rs of the snapshot predates it. Used by the
modelled depth-of-field camera and the modelled recursive color resolution. -/
structure RayT where
  origin : Point3
  direction : Vec3
  time : ℝ

/-- Modelled from the spec (section 4.5, step 2): the background gradient of
the recursive color resolution, a linear interpolation between white and blue
driven by the vertical component of the normalized ray direction. -/
def background (r : RayT) : Color :=
  let unit_direction := r.direction.unit_vector
  let t := 0.5 * (unit_direction.y + 1)
  (⟨1, 1, 1⟩ : Color) * (1 - t) + (⟨0.5, 0.7, 1⟩ : Color) * t

/-- Modelled from the spec: the depth-aware recursive color resolution
(spec section 4.5) that src/src/main.rs invokes as ray.color(world, MAX_DEPTH)
but whose implementation the snapshot of src/src/ray.rs predates. The closest
hit query of the scene over (0.001, infinity) together with the scatter
decision of the hit material is abstracted as the oracle resolve: none means
no hit (background), some none a hit whose material absorbs the ray, and
some (some (attenuation, scattered)) a hit that scatters. -/
def trace (resolve : RayT → Option (Option (Color × RayT))) (r : RayT)
    (depth : ℤ) : Color :=
  if _h : depth ≤ 0 then ⟨0, 0, 0⟩
  else
    match resolve r with
    | none => background r
    | some none => ⟨0, 0, 0⟩
    | some (some (attenuation, scattered)) =>
        attenuation * trace resolve scattered (depth - 1)
termination_by depth.toNat
decreasing_by simp_wf; omega

/-- Modelled from the spec: the depth-of-field camera (spec sections 3 and
4.4) that src/src/main.rs constructs with look_from, look_at, view_up,
vertical fov, aspect, aperture, focus distance and an optional shutter
interval; the camera.rs of the snapshot predates it. -/
structure CameraM where
  origin : Point3
  lower_left_corner : Point3
  horizontal : Vec3
  vertical : Vec3
  u : Vec3
  v : Vec3
  w : Vec3
  lens_radius : ℝ
  shutter : Option (ℝ × ℝ)

/-- Modelled from the spec (section 4.4): construction precomputes the
orthonormal basis (u, v, w), the viewport extents from the vertical fov and
the aspect, scaled by the focus distance, and the lens radius aperture / 2. -/
def CameraM.new (lookfrom lookat vup : Point3) (vfov aspect aperture focus_dist : ℝ)
    (shutter : Option (ℝ × ℝ)) : CameraM :=
  let theta := vfov * Real.pi / 180
  let h := Real.tan (theta / 2)
  let viewport_height := 2 * h
  let viewport_width := aspect * viewport_height
  let w := (lookfrom - lookat).unit_vector
  let u := (vup.cross w).unit_vector
  let v := w.cross u
  let origin := lookfrom
  let horizontal := u * (viewport_width * focus_dist)
  let vertical := v * (viewport_height * focus_dist)
  let lower_left_corner :=
    origin - horizontal / (2 : ℝ) - vertical / (2 : ℝ) - w * focus_dist
  ⟨origin, lower_left_corner, horizontal, vertical, u, v, w, aperture / 2, shutter⟩

/-- Modelled from the spec (section 4.4): get_ray scales a random point of the
unit disk (passed explicitly as rd) by the lens radius, offsets the ray origin
by that lens point along the u and v basis vectors, aims the ray through the
point of the focus plane given by (s, t), and sets the time field from a
uniform draw (passed explicitly as time_rand in [0,1)) over the configured
shutter interval, or to 0 when none is configured. -/
def CameraM.get_ray (c : CameraM) (s t : ℝ) (rd : ℝ × ℝ) (time_rand : ℝ) : RayT :=
  let offset := c.u * (c.lens_radius * rd.1) + c.v * (c.lens_radius * rd.2)
  { origin := c.origin + offset
    direction := c.lower_left_corner + c.horizontal * s + c.vertical * t - c.origin - offset
    time :=
      match c.shutter with
      | some (t0, t1) => t0 + (t1 - t0) * time_rand
      | none => 0 }

end

@[simp]
theorem Vec3.neg_x (v : Vec3) : (-v).x = -v.x := rfl

@[simp]
theorem Vec3.neg_y (v : Vec3) : (-v).y = -v.y := rfl

@[simp]
theorem Vec3.neg_z (v : Vec3) : (-v).z = -v.z := rfl

@[simp]
theorem Vec3.add_x (a b : Vec3) : (a + b).x = a.x + b.x := rfl

@[simp]
theorem Vec3.add_y (a b : Vec3) : (a + b).y = a.y + b.y := rfl

@[simp]
theorem Vec3.add_z (a b : Vec3) : (a + b).z = a.z + b.z := rfl

@[simp]
theorem Vec3.sub_x (a b : Vec3) : (a - b).x = a.x - b.x := rfl

@[simp]
theorem Vec3.sub_y (a b : Vec3) : (a - b).y = a.y - b.y := rfl

@[simp]
theorem Vec3.sub_z (a b : Vec3) : (a - b).z = a.z - b.z := rfl

@[simp]
theorem Vec3.mul_x (a b : Vec3) : (a * b).x = a.x * b.x := rfl

@[simp]
theorem Vec3.mul_y (a b : Vec3) : (a * b).y = a.y * b.y := rfl

@[simp]
theorem Vec3.mul_z (a b : Vec3) : (a * b).z = a.z * b.z := rfl

@[simp]
theorem Vec3.smul_x (v : Vec3) (r : ℝ) : (v * r).x = v.x * r := rfl

@[simp]
theorem Vec3.smul_y (v : Vec3) (r : ℝ) : (v * r).y = v.y * r := rfl

@[simp]
theorem Vec3.smul_z (v : Vec3) (r : ℝ) : (v * r).z = v.z * r := rfl

@[simp]
theorem Vec3.div_x (v : Vec3) (r : ℝ) : (v / r).x = v.x * (1 / r) := rfl

@[simp]
theorem Vec3.div_y (v : Vec3) (r : ℝ) : (v / r).y = v.y * (1 / r) := rfl

@[simp]
theorem Vec3.div_z (v : Vec3) (r : ℝ) : (v / r).z = v.z * (1 / r) := rfl

theorem Vec3.length_squared_nonneg (v : Vec3) : 0 ≤ v.length_squared := by
  unfold Vec3.length_squared
  nlinarith [mul_self_nonneg v.x, mul_self_nonneg v.y, mul_self_nonneg v.z]

theorem Vec3.length_squared_eq_one_of_length (v : Vec3) (h : v.length = 1) :
    v.length_squared = 1 := by
  have h0 := v.length_squared_nonneg
  have h1 : Real.sqrt v.length_squared = 1 := h
  have h2 := Real.sq_sqrt h0
  rw [h1] at h2
  simpa using h2.symm

theorem Vec3.unit_vector_eq_self (v : Vec3) (h : v.length_squared = 1) :
    v.unit_vector = v := by
  unfold Vec3.unit_vector Vec3.length
  rw [h, Real.sqrt_one]
  ext <;> simp

theorem Vec3.dot_sq_le (a b : Vec3) :
    a.dot b * a.dot b ≤ a.length_squared * b.length_squared := by
  unfold Vec3.dot Vec3.length_squared
  nlinarith [sq_nonneg (a.x * b.y - a.y * b.x), sq_nonneg (a.x * b.z - a.z * b.x),
    sq_nonneg (a.y * b.z - a.z * b.y)]

theorem Vec3.refract_eta_one (uv n : Vec3) (huv : uv.length_squared = 1)
    (hn : n.length_squared = 1) (hd : 0 ≤ (-uv).dot n) :
    uv.refract n 1 = uv := by
  have hd1 : (-uv).dot n ≤ 1 := by
    have h2 := Vec3.dot_sq_le (-uv) n
    have h3 : (-uv).length_squared = uv.length_squared := by
      unfold Vec3.length_squared
      simp only [Vec3.neg_x, Vec3.neg_y, Vec3.neg_z]
      ring
    rw [h3, huv, hn] at h2
    nlinarith
  have hperp : ((uv + n * ((-uv).dot n)) * (1 : ℝ)).length_squared
      = 1 - (-uv).dot n * ((-uv).dot n) := by
    unfold Vec3.length_squared at huv hn ⊢
    unfold Vec3.dot
    simp only [Vec3.smul_x, Vec3.smul_y, Vec3.smul_z, Vec3.add_x, Vec3.add_y, Vec3.add_z,
      Vec3.neg_x, Vec3.neg_y, Vec3.neg_z]
    linear_combination huv + ((-uv.x) * n.x + (-uv.y) * n.y + (-uv.z) * n.z) ^ 2 * hn
  unfold Vec3.refract
  simp only [min_eq_left hd1]
  rw [hperp]
  have habs : |1 - (1 - (-uv).dot n * ((-uv).dot n))| = (-uv).dot n * ((-uv).dot n) := by
    rw [abs_of_nonneg]
    · ring
    · nlinarith [mul_self_nonneg ((-uv).dot n)]
  rw [habs, Real.sqrt_mul_self hd]
  ext <;> · simp [Vec3.dot]; ring

/-- C4, counterexample: Metal::new with fuzz argument -1 stores fuzz -1; the
argument below 0 is not raised to 0 and the stored value lies outside [0, 1],
so the stored fuzz is not the argument clamped into [0, 1]. -/
theorem C4_counterexample :
    (Metal.new ⟨1, 1, 1⟩ (-1)).fuzz = -1 ∧ ¬ (0 ≤ (Metal.new ⟨1, 1, 1⟩ (-1)).fuzz) := by
  constructor
  · show min (-1 : ℝ) 1 = -1
    norm_num
  · show ¬ (0 ≤ min (-1 : ℝ) 1)
    norm_num

/-- C4 (amended): Metal::new stores fuzz = min(fuzz, 1): the stored value
never exceeds 1 and an argument above 1 is lowered to 1, but an argument
below 0 is kept as given rather than raised to 0; the albedo is stored
unchanged. -/
theorem C4_metal_new_amended (albedo : Color) (fuzz : ℝ) :
    (Metal.new albedo fuzz).fuzz = min fuzz 1 ∧
    (Metal.new albedo fuzz).fuzz ≤ 1 ∧
    (Metal.new albedo fuzz).albedo = albedo ∧
    (fuzz < 0 → (Metal.new albedo fuzz).fuzz = fuzz) := by
  refine ⟨rfl, min_le_right _ _, rfl, fun h => ?_⟩
  show min fuzz 1 = fuzz
  exact min_eq_left (by linarith)

/-- C4, witness: the amended statement instantiated at albedo (1,1,1) and
fuzz argument -2; the stored fuzz is -2. -/
theorem C4_witness :
    (-2 : ℝ) < 0 ∧ (Metal.new ⟨1, 1, 1⟩ (-2)).fuzz = -2 :=
  ⟨by norm_num, (C4_metal_new_amended ⟨1, 1, 1⟩ (-2)).2.2.2 (by norm_num)⟩

/-- C2: the recursive color resolution modelled from the spec returns exactly
black when invoked with depth at most 0, for every resolve oracle and every
ray. -/
theorem C2_trace_depth_nonpos_black (resolve : RayT → Option (Option (Color × RayT)))
    (r : RayT) (depth : ℤ) (h : depth ≤ 0) :
    trace resolve r depth = ⟨0, 0, 0⟩ := by
  unfold trace
  rw [dif_pos h]

/-- C2, witness: trace at depth 0 over the always-miss oracle and a concrete
ray is black. -/
theorem C2_witness :
    (0 : ℤ) ≤ 0 ∧ trace (fun _ => none) ⟨⟨0, 0, 0⟩, ⟨0, 0, -1⟩, 0⟩ 0 = ⟨0, 0, 0⟩ :=
  ⟨le_refl 0, C2_trace_depth_nonpos_black (fun _ => none) ⟨⟨0, 0, 0⟩, ⟨0, 0, -1⟩, 0⟩ 0 (le_refl 0)⟩

/-- C8: for every vector v and every unit normal n, reflect(v, n) equals
v - 2 dot(v, n) n, and reflecting the reflected vector with the same n
returns v. -/
theorem C8_reflect_involution (v n : Vec3) (h : n.length = 1) :
    v.reflect n = v - n * (2 * v.dot n) ∧ (v.reflect n).reflect n = v := by
  have h1 : n.length_squared = 1 := Vec3.length_squared_eq_one_of_length n h
  unfold Vec3.length_squared at h1
  constructor
  · unfold Vec3.reflect
    ext <;> · simp [Vec3.dot]; ring
  · unfold Vec3.reflect Vec3.dot
    ext
    · simp only [Vec3.sub_x, Vec3.sub_y, Vec3.sub_z, Vec3.smul_x, Vec3.smul_y, Vec3.smul_z]
      linear_combination (4 * (v.x * n.x + v.y * n.y + v.z * n.z) * n.x) * h1
    · simp only [Vec3.sub_x, Vec3.sub_y, Vec3.sub_z, Vec3.smul_x, Vec3.smul_y, Vec3.smul_z]
      linear_combination (4 * (v.x * n.x + v.y * n.y + v.z * n.z) * n.y) * h1
    · simp only [Vec3.sub_x, Vec3.sub_y, Vec3.sub_z, Vec3.smul_x, Vec3.smul_y, Vec3.smul_z]
      linear_combination (4 * (v.x * n.x + v.y * n.y + v.z * n.z) * n.z) * h1

/-- C8, witness: the involution instantiated at v = (1,2,3) and the unit
normal n = (0,0,1). -/
theorem C8_witness :
    (⟨0, 0, 1⟩ : Vec3).length = 1 ∧
    ((⟨1, 2, 3⟩ : Vec3).reflect ⟨0, 0, 1⟩).reflect ⟨0, 0, 1⟩ = ⟨1, 2, 3⟩ := by
  have h : (⟨0, 0, 1⟩ : Vec3).length = 1 := by
    unfold Vec3.length Vec3.length_squared
    norm_num [Real.sqrt_one]
  exact ⟨h, (C8_reflect_involution ⟨1, 2, 3⟩ ⟨0, 0, 1⟩ h).2⟩

/-- C10: Lambertian::scatter and Dielectric::scatter always return true, with
attenuation the albedo for Lambertian and exactly (1,1,1) for Dielectric,
while Metal::scatter can return none, absorbing the ray. -/
theorem C10_absorption :
    (∀ (l : Lambertian) (ray_in : Ray) (rec : HitRecord) (rand_unit : Vec3),
      (l.scatter ray_in rec rand_unit).2.2 = true ∧
      (l.scatter ray_in rec rand_unit).1 = l.albedo) ∧
    (∀ (d : Dielectric) (ray_in : Ray) (rec : HitRecord) (rand : ℝ),
      (d.scatter ray_in rec rand).2.2 = true ∧
      (d.scatter ray_in rec rand).1 = (⟨1, 1, 1⟩ : Color)) ∧
    (∃ (m : Metal) (ray_in : Ray) (rec : HitRecord) (rand_sphere : Vec3),
      m.scatter ray_in rec rand_sphere = none) := by
  refine ⟨fun l ray_in rec rand_unit => ⟨rfl, rfl⟩,
    fun d ray_in rec rand => ⟨rfl, rfl⟩,
    ⟨⟨1, 1, 1⟩, 0⟩, ⟨⟨0, 0, 0⟩, ⟨1, 0, 0⟩⟩, ⟨⟨0, 0, 0⟩, ⟨0, 1, 0⟩, 0, true⟩, ⟨0, 0, 0⟩, ?_⟩
  have hu : (⟨1, 0, 0⟩ : Vec3).unit_vector = ⟨1, 0, 0⟩ :=
    Vec3.unit_vector_eq_self _ (by norm_num [Vec3.length_squared])
  simp only [Metal.scatter, hu]
  norm_num [Vec3.reflect, Vec3.dot]

/-- C9: Metal with fuzz 0 scatters deterministically: the result does not
depend on the random unit-ball draw, and any scattered ray has direction the
unit incident direction reflected about the surface normal, with attenuation
the albedo. -/
theorem C9_metal_fuzz_zero (m : Metal) (ray_in : Ray) (rec : HitRecord)
    (r1 r2 : Vec3) (hf : m.fuzz = 0) :
    m.scatter ray_in rec r1 = m.scatter ray_in rec r2 ∧
    (∀ (sr : Ray) (att : Color), m.scatter ray_in rec r1 = some (sr, att) →
      sr.direction = (ray_in.direction.unit_vector).reflect rec.normal ∧
      att = m.albedo) := by
  have hdir : ∀ (v : Vec3),
      (ray_in.direction.unit_vector).reflect rec.normal + v * m.fuzz
        = (ray_in.direction.unit_vector).reflect rec.normal := by
    intro v
    ext <;> simp [hf]
  have key : ∀ (v : Vec3), m.scatter ray_in rec v =
      (if ((ray_in.direction.unit_vector).reflect rec.normal).dot rec.normal > 0 then
        some (Ray.mk rec.p ((ray_in.direction.unit_vector).reflect rec.normal), m.albedo)
      else none) := by
    intro v
    simp only [Metal.scatter, hdir v]
  refine ⟨by rw [key r1, key r2], fun sr att h => ?_⟩
  rw [key r1] at h
  by_cases hc : ((ray_in.direction.unit_vector).reflect rec.normal).dot rec.normal > 0
  · rw [if_pos hc] at h
    have h2 := (Option.some.injEq _ _).mp h
    have h3 := (Prod.mk.injEq _ _ _ _).mp h2
    exact ⟨by rw [← h3.1], h3.2.symm⟩
  · rw [if_neg hc] at h
    exact absurd h (by simp)

/-- C9, witness: the fuzz-0 metal built by Metal::new scatters the same for
two different random draws at a concrete ray and hit record. -/
theorem C9_witness :
    (Metal.new ⟨1, 1, 1⟩ 0).fuzz = 0 ∧
    (Metal.new ⟨1, 1, 1⟩ 0).scatter ⟨⟨0, 0, 0⟩, ⟨0, 0, -1⟩⟩
        ⟨⟨0, 0, -1⟩, ⟨0, 0, 1⟩, 1, true⟩ ⟨1, 2, 3⟩
      = (Metal.new ⟨1, 1, 1⟩ 0).scatter ⟨⟨0, 0, 0⟩, ⟨0, 0, -1⟩⟩
        ⟨⟨0, 0, -1⟩, ⟨0, 0, 1⟩, 1, true⟩ ⟨0, 0, 0⟩ := by
  have hf : (Metal.new ⟨1, 1, 1⟩ 0).fuzz = 0 := by
    show min (0 : ℝ) 1 = 0
    norm_num
  exact ⟨hf, (C9_metal_fuzz_zero (Metal.new ⟨1, 1, 1⟩ 0) ⟨⟨0, 0, 0⟩, ⟨0, 0, -1⟩⟩
    ⟨⟨0, 0, -1⟩, ⟨0, 0, 1⟩, 1, true⟩ ⟨1, 2, 3⟩ ⟨0, 0, 0⟩ hf).1⟩

/-- C7: Metal::scatter reports a scattered ray exactly when the perturbed
reflected direction has strictly positive dot product with the surface normal,
reports none (the ray is absorbed) otherwise, and on scatter the attenuation
is the albedo, the origin the hit point and the direction the perturbed
reflected direction. -/
theorem C7_metal_scatter (m : Metal) (ray_in : Ray) (rec : HitRecord)
    (rand_sphere : Vec3) :
    ((m.scatter ray_in rec rand_sphere).isSome ↔
      0 < ((ray_in.direction.unit_vector).reflect rec.normal + rand_sphere * m.fuzz).dot rec.normal) ∧
    (¬ 0 < ((ray_in.direction.unit_vector).reflect rec.normal + rand_sphere * m.fuzz).dot rec.normal →
      m.scatter ray_in rec rand_sphere = none) ∧
    (∀ (sr : Ray) (att : Color), m.scatter ray_in rec rand_sphere = some (sr, att) →
      att = m.albedo ∧ sr.origin = rec.p ∧
      sr.direction = (ray_in.direction.unit_vector).reflect rec.normal + rand_sphere * m.fuzz) := by
  by_cases hc : 0 < ((ray_in.direction.unit_vector).reflect rec.normal + rand_sphere * m.fuzz).dot rec.normal
  · refine ⟨by simp [Metal.scatter, hc], fun h => absurd hc h, fun sr att h => ?_⟩
    simp only [Metal.scatter] at h
    rw [if_pos hc] at h
    have h2 := (Option.some.injEq _ _).mp h
    have h3 := (Prod.mk.injEq _ _ _ _).mp h2
    exact ⟨h3.2.symm, by rw [← h3.1], by rw [← h3.1]⟩
  · refine ⟨by simp [Metal.scatter, hc], fun _ => by simp [Metal.scatter, hc], fun sr att h => ?_⟩
    simp only [Metal.scatter] at h
    rw [if_neg hc] at h
    exact absurd h (by simp)

/-- C7, witness: a concrete metal scatter that is accepted, with attenuation
equal to the albedo. -/
theorem C7_witness :
    (Metal.new ⟨0.8, 0.6, 0.2⟩ 0).scatter ⟨⟨0, 0, 0⟩, ⟨0, 0, -1⟩⟩
        ⟨⟨0, 0, -1⟩, ⟨0, 0, 1⟩, 1, true⟩ ⟨0, 0, 0⟩
      = some (Ray.mk ⟨0, 0, -1⟩ ⟨0, 0, 1⟩, ⟨0.8, 0.6, 0.2⟩) ∧
    (⟨0.8, 0.6, 0.2⟩ : Color) = (Metal.new ⟨0.8, 0.6, 0.2⟩ 0).albedo := by
  have hu : (⟨0, 0, -1⟩ : Vec3).unit_vector = ⟨0, 0, -1⟩ :=
    Vec3.unit_vector_eq_self _ (by norm_num [Vec3.length_squared])
  have hs : (Metal.new ⟨0.8, 0.6, 0.2⟩ 0).scatter ⟨⟨0, 0, 0⟩, ⟨0, 0, -1⟩⟩
      ⟨⟨0, 0, -1⟩, ⟨0, 0, 1⟩, 1, true⟩ ⟨0, 0, 0⟩
      = some (Ray.mk ⟨0, 0, -1⟩ ⟨0, 0, 1⟩, ⟨0.8, 0.6, 0.2⟩) := by
    simp only [Metal.scatter, hu]
    norm_num [Vec3.reflect, Vec3.dot, Metal.new]
    ext <;> norm_num
  refine ⟨hs, ((C7_metal_scatter (Metal.new ⟨0.8, 0.6, 0.2⟩ 0) ⟨⟨0, 0, 0⟩, ⟨0, 0, -1⟩⟩
    ⟨⟨0, 0, -1⟩, ⟨0, 0, 1⟩, 1, true⟩ ⟨0, 0, 0⟩).2.2 _ _ hs).1.symm⟩

theorem quadratic_smaller_root (A b C s t : ℝ) (hA : 0 < A)
    (hsq : s * s = b * b - 4 * A * C) (hs : 0 ≤ s)
    (ht : t = (-b - s) / (2 * A)) :
    A * (t * t) + b * t + C = 0 ∧ t ≤ (-b + s) / (2 * A) := by
  have hane : A ≠ 0 := ne_of_gt hA
  have h2a : (0 : ℝ) < 2 * A := by linarith
  constructor
  · rw [ht]
    field_simp
    linear_combination 2 * A ^ 2 * hsq
  · rw [ht]
    exact (div_le_div_iff_of_pos_right h2a).mpr (by linarith)

/-- C6: a ray for which the sphere test reports no positive parameter resolves
to the background gradient (1 - t) white + t blue with
t = 0.5 (unit_direction.y + 1); t = 0 (vertical component -1) gives pure white
and t = 1 (vertical component 1) gives pure blue. -/
theorem C6_background_gradient (r : Ray) (h : ¬ r.hit_sphere ⟨0, 0, -1⟩ 0.5 > 0) :
    r.color = (⟨1, 1, 1⟩ : Color) * (1 - 0.5 * ((r.direction.unit_vector).y + 1))
      + (⟨0.5, 0.7, 1⟩ : Color) * (0.5 * ((r.direction.unit_vector).y + 1)) ∧
    ((r.direction.unit_vector).y = -1 → r.color = ⟨1, 1, 1⟩) ∧
    ((r.direction.unit_vector).y = 1 → r.color = ⟨0.5, 0.7, 1⟩) := by
  have hc : r.color = (⟨1, 1, 1⟩ : Color) * (1 - 0.5 * ((r.direction.unit_vector).y + 1))
      + (⟨0.5, 0.7, 1⟩ : Color) * (0.5 * ((r.direction.unit_vector).y + 1)) := by
    simp only [Ray.color]
    rw [if_neg h]
  refine ⟨hc, fun hy => ?_, fun hy => ?_⟩
  · rw [hc, hy]
    ext <;> norm_num
  · rw [hc, hy]
    ext <;> norm_num

/-- C6, witness: the straight-up ray misses the sphere and resolves to pure
blue, since its normalized direction has vertical component 1. -/
theorem C6_witness :
    ¬ (⟨⟨0, 0, 0⟩, ⟨0, 1, 0⟩⟩ : Ray).hit_sphere ⟨0, 0, -1⟩ 0.5 > 0 ∧
    (⟨⟨0, 0, 0⟩, ⟨0, 1, 0⟩⟩ : Ray).color = ⟨0.5, 0.7, 1⟩ := by
  have hu : (⟨0, 1, 0⟩ : Vec3).unit_vector = ⟨0, 1, 0⟩ :=
    Vec3.unit_vector_eq_self _ (by norm_num [Vec3.length_squared])
  have h : ¬ (⟨⟨0, 0, 0⟩, ⟨0, 1, 0⟩⟩ : Ray).hit_sphere ⟨0, 0, -1⟩ 0.5 > 0 := by
    simp only [Ray.hit_sphere]
    norm_num [Vec3.dot]
  refine ⟨h, (C6_background_gradient ⟨⟨0, 0, 0⟩, ⟨0, 1, 0⟩⟩ h).2.2 ?_⟩
  rw [hu]

/-- C1, counterexample: for the ray with origin (0,0,-1) (the center of the
hard-coded sphere) and direction (0,0,-1), against the sphere centered at
(0,0,-1) of radius 0.5, hit_sphere returns the smaller quadratic root -1/2
even though it lies outside (0.001, infinity), and never tries the larger
root 1/2, which lies inside the window and is a true intersection parameter;
the caller Ray::color accordingly reports no hit and falls back to the
background gradient. -/
theorem C1_counterexample :
    (⟨⟨0, 0, -1⟩, ⟨0, 0, -1⟩⟩ : Ray).hit_sphere ⟨0, 0, -1⟩ 0.5 = -(1 / 2) ∧
    ¬ ((0.001 : ℝ) < -(1 / 2)) ∧
    (0.001 : ℝ) < 1 / 2 ∧
    ((⟨⟨0, 0, -1⟩, ⟨0, 0, -1⟩⟩ : Ray).at_t (1 / 2) - (⟨0, 0, -1⟩ : Vec3)).length_squared
      = 0.5 * 0.5 ∧
    (⟨⟨0, 0, -1⟩, ⟨0, 0, -1⟩⟩ : Ray).color = ⟨3 / 4, 17 / 20, 1⟩ := by
  have hs : (⟨⟨0, 0, -1⟩, ⟨0, 0, -1⟩⟩ : Ray).hit_sphere ⟨0, 0, -1⟩ 0.5 = -(1 / 2) := by
    simp only [Ray.hit_sphere]
    norm_num [Vec3.dot, Real.sqrt_one]
  have hu : (⟨0, 0, -1⟩ : Vec3).unit_vector = ⟨0, 0, -1⟩ :=
    Vec3.unit_vector_eq_self _ (by norm_num [Vec3.length_squared])
  refine ⟨hs, by norm_num, by norm_num, ?_, ?_⟩
  · norm_num [Ray.at_t, Vec3.length_squared]
  · simp only [Ray.color, hs, hu]
    norm_num
    ext <;> norm_num

/-- C1 (amended): hit_sphere(center, radius) takes no (t_min, t_max) window:
when the discriminant is negative it returns -1 (no hit); otherwise it
unconditionally returns the smaller quadratic root (-b - sqrt(disc)) / (2a),
a true root of the quadratic and never larger than the other root, even when
it is negative; the larger root is never tried, and the caller Ray::color
treats a hit as the returned t being strictly positive rather than above
0.001. -/
theorem C1_hit_sphere_amended (r : Ray) (center : Point3) (radius a b c disc : ℝ)
    (ha : a = r.direction.dot r.direction)
    (hb : b = (r.origin - center).dot r.direction * 2)
    (hc : c = (r.origin - center).dot (r.origin - center) - radius * radius)
    (hdisc : disc = b * b - 4 * a * c) :
    (disc < 0 → r.hit_sphere center radius = -1) ∧
    (0 ≤ disc → 0 < a →
      a * (r.hit_sphere center radius * r.hit_sphere center radius)
        + b * r.hit_sphere center radius + c = 0 ∧
      r.hit_sphere center radius ≤ (-b + Real.sqrt disc) / (2 * a)) := by
  subst ha hb hc hdisc
  constructor
  · intro hneg
    simp only [Ray.hit_sphere]
    rw [if_pos hneg]
  · intro h0 hapos
    have hval : r.hit_sphere center radius
        = (-((r.origin - center).dot r.direction * 2)
            - Real.sqrt ((r.origin - center).dot r.direction * 2
                * ((r.origin - center).dot r.direction * 2)
              - 4 * (r.direction.dot r.direction)
                * ((r.origin - center).dot (r.origin - center) - radius * radius)))
          / (2 * (r.direction.dot r.direction)) := by
      simp only [Ray.hit_sphere]
      rw [if_neg (not_lt.mpr h0)]
    have hsq := Real.mul_self_sqrt h0
    have hs := Real.sqrt_nonneg ((r.origin - center).dot r.direction * 2
        * ((r.origin - center).dot r.direction * 2)
      - 4 * (r.direction.dot r.direction)
        * ((r.origin - center).dot (r.origin - center) - radius * radius))
    exact quadratic_smaller_root (r.direction.dot r.direction)
      ((r.origin - center).dot r.direction * 2)
      ((r.origin - center).dot (r.origin - center) - radius * radius)
      (Real.sqrt ((r.origin - center).dot r.direction * 2
          * ((r.origin - center).dot r.direction * 2)
        - 4 * (r.direction.dot r.direction)
          * ((r.origin - center).dot (r.origin - center) - radius * radius)))
      (r.hit_sphere center radius) hapos hsq hs hval

/-- C1, witness: the amended statement instantiated for the ray from the
origin toward (0,0,-1) against the sphere centered at the origin of radius
0.5, where the discriminant is 1 and the returned root -1/2 solves the
quadratic and is at most the larger root. -/
theorem C1_witness :
    (0 : ℝ) ≤ 1 ∧ (0 : ℝ) < 1 ∧
    (1 * ((⟨⟨0, 0, 0⟩, ⟨0, 0, -1⟩⟩ : Ray).hit_sphere ⟨0, 0, 0⟩ 0.5
        * (⟨⟨0, 0, 0⟩, ⟨0, 0, -1⟩⟩ : Ray).hit_sphere ⟨0, 0, 0⟩ 0.5)
      + 0 * (⟨⟨0, 0, 0⟩, ⟨0, 0, -1⟩⟩ : Ray).hit_sphere ⟨0, 0, 0⟩ 0.5 + -(1 / 4) = 0 ∧
     (⟨⟨0, 0, 0⟩, ⟨0, 0, -1⟩⟩ : Ray).hit_sphere ⟨0, 0, 0⟩ 0.5
       ≤ (-0 + Real.sqrt 1) / (2 * 1)) := by
  refine ⟨by norm_num, by norm_num,
    (C1_hit_sphere_amended ⟨⟨0, 0, 0⟩, ⟨0, 0, -1⟩⟩ ⟨0, 0, 0⟩ 0.5 1 0 (-(1 / 4)) 1
      ?_ ?_ ?_ ?_).2 (by norm_num) (by norm_num)⟩
  · norm_num [Vec3.dot]
  · norm_num [Vec3.dot]
  · norm_num [Vec3.dot]
  · norm_num

/-- C3, counterexample: for the dielectric with index of refraction 1, the
incident ray with unit direction (3/5, -4/5, 0) against normal (0, 1, 0) and
uniform draw 1/10000 takes the reflect branch, since the Schlick reflectance
at quotient 1 is (1/5)^5 = 1/3125 > 1/10000, and scatters in direction
(3/5, 4/5, 0), which is not the unbent unit incident direction. -/
theorem C3_counterexample :
    ((Dielectric.new 1).scatter ⟨⟨0, 0, 0⟩, ⟨3 / 5, -(4 / 5), 0⟩⟩
        ⟨⟨0, 0, 0⟩, ⟨0, 1, 0⟩, 1, true⟩ (1 / 10000)).2.1.direction
      = ⟨3 / 5, 4 / 5, 0⟩ ∧
    (⟨3 / 5, 4 / 5, 0⟩ : Vec3) ≠ (⟨3 / 5, -(4 / 5), 0⟩ : Vec3).unit_vector := by
  have hu : (⟨3 / 5, -(4 / 5), 0⟩ : Vec3).unit_vector = ⟨3 / 5, -(4 / 5), 0⟩ :=
    Vec3.unit_vector_eq_self _ (by norm_num [Vec3.length_squared])
  constructor
  · simp only [Dielectric.scatter, Dielectric.new, hu]
    norm_num [Vec3.dot, Dielectric.reflectance, min_def, Vec3.reflect]
    ext <;> norm_num
  · rw [hu]
    intro hE
    have h2 := congrArg Vec3.y hE
    norm_num at h2

/-- C3 (amended): for a Dielectric with index_of_refraction 1, the
total-internal-reflection test never fires, since the refraction quotient is 1
and sin_theta is at most 1; and whenever the Schlick reflectance does not
exceed the uniform draw, the refract branch is taken and the scattered ray
direction is the unbent unit incident direction. The reflect branch, however,
is taken whenever the draw falls below the reflectance, which is positive for
cos_theta below 1 (see the counterexample). -/
theorem C3_dielectric_eta_one (d : Dielectric) (ray_in : Ray) (rec : HitRecord)
    (rand : ℝ) (hior : d.index_of_refraction = 1) :
    ¬ ((1 : ℝ) * Real.sqrt (1 - min ((-(ray_in.direction.unit_vector)).dot rec.normal) 1
        * min ((-(ray_in.direction.unit_vector)).dot rec.normal) 1) > 1) ∧
    ((ray_in.direction.unit_vector).length_squared = 1 →
      rec.normal.length_squared = 1 →
      0 ≤ (-(ray_in.direction.unit_vector)).dot rec.normal →
      Dielectric.reflectance (min ((-(ray_in.direction.unit_vector)).dot rec.normal) 1) 1 ≤ rand →
      (d.scatter ray_in rec rand).2.1.direction = ray_in.direction.unit_vector) := by
  have hsin : ∀ c : ℝ, Real.sqrt (1 - c * c) ≤ 1 := by
    intro c
    have hle : 1 - c * c ≤ 1 := by nlinarith [mul_self_nonneg c]
    calc Real.sqrt (1 - c * c) ≤ Real.sqrt 1 := Real.sqrt_le_sqrt hle
    _ = 1 := Real.sqrt_one
  have heta : (if rec.front_face then 1 / d.index_of_refraction else d.index_of_refraction) = 1 := by
    rw [hior]
    cases rec.front_face <;> norm_num
  constructor
  · rw [one_mul]
    exact not_lt.mpr (hsin _)
  · intro huv hn hd hrand
    have hcond : ¬ ((1 : ℝ) * Real.sqrt
          (1 - min ((-(ray_in.direction.unit_vector)).dot rec.normal) 1
            * min ((-(ray_in.direction.unit_vector)).dot rec.normal) 1) > 1
        ∨ Dielectric.reflectance (min ((-(ray_in.direction.unit_vector)).dot rec.normal) 1) 1
            > rand) := by
      push_neg
      exact ⟨by rw [one_mul]; exact hsin _, hrand⟩
    simp only [Dielectric.scatter, heta]
    rw [if_neg hcond]
    exact Vec3.refract_eta_one (ray_in.direction.unit_vector) rec.normal huv hn hd

/-- C3, witness: the amended statement instantiated for a head-on ray with
direction (0, 0, -1) against normal (0, 0, 1): cos_theta is 1, the Schlick
reflectance is 0, and the dielectric of index 1 scatters straight through. -/
theorem C3_witness :
    (⟨0, 0, -1⟩ : Vec3).unit_vector.length_squared = 1 ∧
    (⟨0, 0, 1⟩ : Vec3).length_squared = 1 ∧
    0 ≤ (-((⟨0, 0, -1⟩ : Vec3).unit_vector)).dot ⟨0, 0, 1⟩ ∧
    Dielectric.reflectance (min ((-((⟨0, 0, -1⟩ : Vec3).unit_vector)).dot ⟨0, 0, 1⟩) 1) 1
      ≤ 1 / 2 ∧
    ((⟨1⟩ : Dielectric).scatter ⟨⟨0, 0, 0⟩, ⟨0, 0, -1⟩⟩
        ⟨⟨0, 0, 0⟩, ⟨0, 0, 1⟩, 1, true⟩ (1 / 2)).2.1.direction
      = (⟨0, 0, -1⟩ : Vec3).unit_vector := by
  have hu : (⟨0, 0, -1⟩ : Vec3).unit_vector = ⟨0, 0, -1⟩ :=
    Vec3.unit_vector_eq_self _ (by norm_num [Vec3.length_squared])
  have huv : (⟨0, 0, -1⟩ : Vec3).unit_vector.length_squared = 1 := by
    rw [hu]
    norm_num [Vec3.length_squared]
  have hn : (⟨0, 0, 1⟩ : Vec3).length_squared = 1 := by
    norm_num [Vec3.length_squared]
  have hd : 0 ≤ (-((⟨0, 0, -1⟩ : Vec3).unit_vector)).dot ⟨0, 0, 1⟩ := by
    rw [hu]
    norm_num [Vec3.dot]
  have hrand : Dielectric.reflectance
      (min ((-((⟨0, 0, -1⟩ : Vec3).unit_vector)).dot ⟨0, 0, 1⟩) 1) 1 ≤ 1 / 2 := by
    rw [hu]
    norm_num [Vec3.dot, Dielectric.reflectance, min_def]
  exact ⟨huv, hn, hd, hrand,
    (C3_dielectric_eta_one ⟨1⟩ ⟨⟨0, 0, 0⟩, ⟨0, 0, -1⟩⟩
      ⟨⟨0, 0, 0⟩, ⟨0, 0, 1⟩, 1, true⟩ (1 / 2) rfl).2 huv hn hd hrand⟩

/-- C5: for the camera modelled from the spec, get_ray offsets the ray origin
from the camera position by the unit-disk sample scaled by the lens radius,
which CameraM.new stores as aperture / 2, so with an orthonormal lens basis
the offset stays within the lens disk and a zero lens radius leaves the
origin at the camera position; the ray aims through the focus-plane point
selected by (s, t) independently of the lens sample; and the time field is a
uniform draw over the configured shutter interval, or 0 when none is
configured. -/
theorem C5_get_ray (cam : CameraM) (s t rd1 rd2 time_rand : ℝ) :
    (cam.get_ray s t (rd1, rd2) time_rand).origin
        + (cam.get_ray s t (rd1, rd2) time_rand).direction
      = cam.lower_left_corner + cam.horizontal * s + cam.vertical * t ∧
    (cam.lens_radius = 0 → (cam.get_ray s t (rd1, rd2) time_rand).origin = cam.origin) ∧
    (cam.u.length_squared = 1 → cam.v.length_squared = 1 → cam.u.dot cam.v = 0 →
      rd1 * rd1 + rd2 * rd2 ≤ 1 →
      ((cam.get_ray s t (rd1, rd2) time_rand).origin - cam.origin).length_squared
        ≤ cam.lens_radius * cam.lens_radius) ∧
    (cam.shutter = none → (cam.get_ray s t (rd1, rd2) time_rand).time = 0) ∧
    (∀ t0 t1, cam.shutter = some (t0, t1) → 0 ≤ time_rand → time_rand < 1 → t0 ≤ t1 →
      (cam.get_ray s t (rd1, rd2) time_rand).time = t0 + (t1 - t0) * time_rand ∧
      t0 ≤ (cam.get_ray s t (rd1, rd2) time_rand).time ∧
      (cam.get_ray s t (rd1, rd2) time_rand).time ≤ t1) ∧
    (∀ lookfrom lookat vup vfov aspect aperture focus_dist sh,
      (CameraM.new lookfrom lookat vup vfov aspect aperture focus_dist sh).lens_radius
        = aperture / 2) := by
  refine ⟨?_, ?_, ?_, ?_, ?_, fun lookfrom lookat vup vfov aspect aperture focus_dist sh => rfl⟩
  · simp only [CameraM.get_ray]
    ext <;> · simp; try ring
  · intro h0
    simp only [CameraM.get_ray, h0]
    ext <;> · simp; try ring
  · intro hu hv huv hrd
    have hoff : ((cam.get_ray s t (rd1, rd2) time_rand).origin - cam.origin).length_squared
        = cam.lens_radius * cam.lens_radius * (rd1 * rd1 + rd2 * rd2) := by
      simp only [CameraM.get_ray]
      unfold Vec3.length_squared at hu hv ⊢
      unfold Vec3.dot at huv
      simp only [Vec3.sub_x, Vec3.sub_y, Vec3.sub_z, Vec3.add_x, Vec3.add_y, Vec3.add_z,
        Vec3.smul_x, Vec3.smul_y, Vec3.smul_z]
      linear_combination (cam.lens_radius * rd1) * (cam.lens_radius * rd1) * hu
        + (cam.lens_radius * rd2) * (cam.lens_radius * rd2) * hv
        + (2 * cam.lens_radius * cam.lens_radius * rd1 * rd2) * huv
    rw [hoff]
    nlinarith [mul_self_nonneg cam.lens_radius]
  · intro hsh
    simp only [CameraM.get_ray, hsh]
  · intro t0 t1 hsh h0 h1 hle
    have htime : (cam.get_ray s t (rd1, rd2) time_rand).time = t0 + (t1 - t0) * time_rand := by
      simp only [CameraM.get_ray, hsh]
    refine ⟨htime, ?_, ?_⟩
    · rw [htime]
      nlinarith
    · rw [htime]
      nlinarith

/-- C5, witness: the camera at the origin looking down the negative z axis
with view-up (0,1,0), aperture 1, focus distance 3 and shutter interval
(0, 2): the basis vectors u, v are (1,0,0) and (0,1,0), the lens offset for
disk sample (1/2, 0) stays within the lens radius, and the sampled time for
draw 1/2 lies in [0, 2]. -/
theorem C5_witness :
    (CameraM.new ⟨0, 0, 0⟩ ⟨0, 0, -1⟩ ⟨0, 1, 0⟩ 90 2 1 3 (some (0, 2))).u.length_squared = 1 ∧
    (CameraM.new ⟨0, 0, 0⟩ ⟨0, 0, -1⟩ ⟨0, 1, 0⟩ 90 2 1 3 (some (0, 2))).v.length_squared = 1 ∧
    (CameraM.new ⟨0, 0, 0⟩ ⟨0, 0, -1⟩ ⟨0, 1, 0⟩ 90 2 1 3 (some (0, 2))).u.dot
      (CameraM.new ⟨0, 0, 0⟩ ⟨0, 0, -1⟩ ⟨0, 1, 0⟩ 90 2 1 3 (some (0, 2))).v = 0 ∧
    (((CameraM.new ⟨0, 0, 0⟩ ⟨0, 0, -1⟩ ⟨0, 1, 0⟩ 90 2 1 3 (some (0, 2))).get_ray
          (1 / 2) (1 / 2) (1 / 2, 0) (1 / 2)).origin
        - (CameraM.new ⟨0, 0, 0⟩ ⟨0, 0, -1⟩ ⟨0, 1, 0⟩ 90 2 1 3 (some (0, 2))).origin).length_squared
      ≤ (CameraM.new ⟨0, 0, 0⟩ ⟨0, 0, -1⟩ ⟨0, 1, 0⟩ 90 2 1 3 (some (0, 2))).lens_radius
        * (CameraM.new ⟨0, 0, 0⟩ ⟨0, 0, -1⟩ ⟨0, 1, 0⟩ 90 2 1 3 (some (0, 2))).lens_radius ∧
    0 ≤ ((CameraM.new ⟨0, 0, 0⟩ ⟨0, 0, -1⟩ ⟨0, 1, 0⟩ 90 2 1 3 (some (0, 2))).get_ray
        (1 / 2) (1 / 2) (1 / 2, 0) (1 / 2)).time ∧
    ((CameraM.new ⟨0, 0, 0⟩ ⟨0, 0, -1⟩ ⟨0, 1, 0⟩ 90 2 1 3 (some (0, 2))).get_ray
        (1 / 2) (1 / 2) (1 / 2, 0) (1 / 2)).time ≤ 2 := by
  have hsub : (⟨0, 0, 0⟩ : Vec3) - ⟨0, 0, -1⟩ = ⟨0, 0, 1⟩ := by
    ext <;> norm_num
  have hw2 : (⟨0, 0, 1⟩ : Vec3).unit_vector = ⟨0, 0, 1⟩ :=
    Vec3.unit_vector_eq_self _ (by norm_num [Vec3.length_squared])
  have hcross1 : (⟨0, 1, 0⟩ : Vec3).cross ⟨0, 0, 1⟩ = ⟨1, 0, 0⟩ := by
    unfold Vec3.cross
    ext <;> norm_num
  have hu1 : (⟨1, 0, 0⟩ : Vec3).unit_vector = ⟨1, 0, 0⟩ :=
    Vec3.unit_vector_eq_self _ (by norm_num [Vec3.length_squared])
  have hcross2 : (⟨0, 0, 1⟩ : Vec3).cross ⟨1, 0, 0⟩ = ⟨0, 1, 0⟩ := by
    unfold Vec3.cross
    ext <;> norm_num
  have hcamu : (CameraM.new ⟨0, 0, 0⟩ ⟨0, 0, -1⟩ ⟨0, 1, 0⟩ 90 2 1 3 (some (0, 2))).u
      = ⟨1, 0, 0⟩ := by
    simp only [CameraM.new]
    rw [hsub, hw2, hcross1, hu1]
  have hcamv : (CameraM.new ⟨0, 0, 0⟩ ⟨0, 0, -1⟩ ⟨0, 1, 0⟩ 90 2 1 3 (some (0, 2))).v
      = ⟨0, 1, 0⟩ := by
    simp only [CameraM.new]
    rw [hsub, hw2, hcross1, hu1, hcross2]
  have hu : (CameraM.new ⟨0, 0, 0⟩ ⟨0, 0, -1⟩ ⟨0, 1, 0⟩ 90 2 1 3 (some (0, 2))).u.length_squared
      = 1 := by
    rw [hcamu]
    norm_num [Vec3.length_squared]
  have hv : (CameraM.new ⟨0, 0, 0⟩ ⟨0, 0, -1⟩ ⟨0, 1, 0⟩ 90 2 1 3 (some (0, 2))).v.length_squared
      = 1 := by
    rw [hcamv]
    norm_num [Vec3.length_squared]
  have huv : (CameraM.new ⟨0, 0, 0⟩ ⟨0, 0, -1⟩ ⟨0, 1, 0⟩ 90 2 1 3 (some (0, 2))).u.dot
      (CameraM.new ⟨0, 0, 0⟩ ⟨0, 0, -1⟩ ⟨0, 1, 0⟩ 90 2 1 3 (some (0, 2))).v = 0 := by
    rw [hcamu, hcamv]
    norm_num [Vec3.dot]
  have main := C5_get_ray (CameraM.new ⟨0, 0, 0⟩ ⟨0, 0, -1⟩ ⟨0, 1, 0⟩ 90 2 1 3 (some (0, 2)))
    (1 / 2) (1 / 2) (1 / 2) 0 (1 / 2)
  have htime := main.2.2.2.2.1 0 2 rfl (by norm_num) (by norm_num) (by norm_num)
  exact ⟨hu, hv, huv, main.2.2.1 hu hv huv (by norm_num), htime.2.1, htime.2.2⟩
